import Mathlib

/-!
Shallow embedding of the CSP examples of the repository
`praisan/artificial_intelligence`, Chapter 05 (Constraint Satisfaction
Problems): `MapColoringProblem` and `CourseSchedulingProblem`, together
with the generic backtracking solver contract they rely on.

Python dictionaries are embedded as insertion-ordered association lists
(`List (String × β)`); `d[k]` / `k in d` become `lookupA`, and a list is a
`List`.  The two `is_consistent` methods are translated statement by
statement from the notebooks.  The solver `backtracking_search` and the
base class `CSPProblem.__init__` live in the external `kamgon` library and
are not part of the repository sources; they are modelled from the spec
where a claim needs them.
-/

set_option maxHeartbeats 1000000

/-- Association-list lookup: first value bound to key `k`
(Python `d[k]` when `k in d`, `None` otherwise). -/
def lookupA {β : Type} (A : List (String × β)) (k : String) : Option β :=
  (A.find? (fun e => e.1 = k)).map (fun e => e.2)

/-- Python `neighbors.get(variable, [])`. -/
def neighborsGet (nbrs : List (String × List String)) (v : String) : List String :=
  (lookupA nbrs v).getD []

/-- Removing a key from a dictionary (`assignment` with `k`'s entry removed). -/
def eraseKey {β : Type} (A : List (String × β)) (k : String) : List (String × β) :=
  A.filter (fun e => decide (e.1 ≠ k))

/-- The keys of an association list are pairwise distinct (always true of an
embedded Python dict). -/
def KeysNodup {β : Type} (A : List (String × β)) : Prop :=
  (A.map Prod.fst).Nodup

instance {β : Type} (A : List (String × β)) : Decidable (KeysNodup A) := by
  unfold KeysNodup
  infer_instance

/-!
## `MapColoringProblem` (MapColoringProblem.ipynb)

```python
class MapColoringProblem(CSPProblem):
    def __init__(self, regions, neighbors, colors):
        self.neighbors = neighbors
        domains = {region: colors.copy() for region in regions}
        super().__init__(regions, domains)

    def is_consistent(self, variable, value, assignment):
        for neighbor in self.neighbors.get(variable, []):
            if neighbor in assignment and assignment[neighbor] == value:
                return False
        return True
```

The base class `CSPProblem` comes from the external `kamgon` library.
Modelled from the spec: a problem exposes `{variables, domains,
is_consistent}` (spec section 6), so `super().__init__(variables, domains)`
stores the variable list and the domain mapping.
-/

structure MapColoringProblem where
  neighbors : List (String × List String)
  vars : List String
  domains : List (String × List String)

/-- `MapColoringProblem.__init__`: stores `neighbors` and hands
`regions` and `{region: colors.copy() for region in regions}` to the
base class (modelled from the spec as storing them). -/
def mkMapColoringProblem (regions : List String)
    (neighbors : List (String × List String)) (colors : List String) :
    MapColoringProblem :=
  { neighbors := neighbors
    vars := regions
    domains := regions.map (fun region => (region, colors)) }

/-- `MapColoringProblem.is_consistent`: the colouring is rejected exactly
when some neighbour of `variable` is already assigned colour `value`. -/
def MapColoringProblem.is_consistent (p : MapColoringProblem)
    (var value : String) (assignment : List (String × String)) : Bool :=
  (neighborsGet p.neighbors var).all (fun neighbor =>
    match lookupA assignment neighbor with
    | some c => decide (c ≠ value)
    | none => true)

/-!
## `CourseSchedulingProblem` (CourseSchedulingProblem.ipynb)

```python
class CourseSchedulingProblem(CSPProblem):
    def __init__(self, courses, time_slots, rooms, conflicts):
        self.time_slots = time_slots
        self.rooms = rooms
        self.conflicts = conflicts
        possible_slots = [(time, room) for time in time_slots for room in rooms]
        domains = {course: possible_slots.copy() for course in courses}
        super().__init__(courses, domains)

    def is_consistent(self, variable, value, assignment):
        time, room = value
        for assigned_course, assigned_slot in assignment.items():
            if assigned_course == variable:
                continue
            assigned_time, assigned_room = assigned_slot
            if time == assigned_time and room == assigned_room:
                return False
            if time == assigned_time:
                for course1, course2 in self.conflicts:
                    if ((variable == course1 and assigned_course == course2) or
                        (variable == course2 and assigned_course == course1)):
                        return False
        return True
```
-/

structure CourseSchedulingProblem where
  time_slots : List String
  rooms : List String
  conflicts : List (String × String)
  vars : List String
  domains : List (String × List (String × String))

/-- `CourseSchedulingProblem.__init__`: stores the slot data and hands
`courses` and the time-major slot products to the base class (modelled from
the spec as storing them). -/
def mkCourseSchedulingProblem (courses time_slots rooms : List String)
    (conflicts : List (String × String)) : CourseSchedulingProblem :=
  let possible_slots := time_slots.flatMap (fun time => rooms.map (fun room => (time, room)))
  { time_slots := time_slots
    rooms := rooms
    conflicts := conflicts
    vars := courses
    domains := courses.map (fun course => (course, possible_slots)) }

/-- The inner `for course1, course2 in self.conflicts` loop: does some
conflict pair match `(variable, assigned_course)` in either order? -/
def conflictHit (conflicts : List (String × String))
    (var assigned_course : String) : Bool :=
  conflicts.any (fun q =>
    (decide (var = q.1) && decide (assigned_course = q.2)) ||
    (decide (var = q.2) && decide (assigned_course = q.1)))

/-- The `for assigned_course, assigned_slot in assignment.items()` loop of
`CourseSchedulingProblem.is_consistent`. -/
def csLoop (conflicts : List (String × String)) (var : String)
    (value : String × String) :
    List (String × (String × String)) → Bool
  | [] => true
  | e :: rest =>
    if e.1 = var then csLoop conflicts var value rest
    else if value.1 = e.2.1 ∧ value.2 = e.2.2 then false
    else if value.1 = e.2.1 ∧ conflictHit conflicts var e.1 = true then false
    else csLoop conflicts var value rest

/-- `CourseSchedulingProblem.is_consistent`. -/
def CourseSchedulingProblem.is_consistent (p : CourseSchedulingProblem)
    (var : String) (value : String × String)
    (assignment : List (String × (String × String))) : Bool :=
  csLoop p.conflicts var value assignment

example :
    (mkMapColoringProblem ["A", "B"] [("A", ["B"]), ("B", ["A"])]
      ["red", "green"]).is_consistent "B" "red" [("A", "red")] = false := by decide

example :
    (mkMapColoringProblem ["A", "B"] [("A", ["B"]), ("B", ["A"])]
      ["red", "green"]).is_consistent "B" "green" [("A", "red")] = true := by decide

example :
    (mkCourseSchedulingProblem ["m", "p"] ["t1", "t2"] ["r1"] [("m", "p")]).is_consistent
      "p" ("t1", "r1") [("m", ("t1", "r1"))] = false := by decide

example :
    (mkCourseSchedulingProblem ["m", "p"] ["t1", "t2"] ["r1"] [("m", "p")]).is_consistent
      "p" ("t2", "r1") [("m", ("t1", "r1"))] = true := by decide

/-!
## The solver contract (`kamgon.backtracking_search`)

The solver itself is not part of this repository.  Modelled from the spec:
`backtracking_search` is the recursive backtracking algorithm of spec
section 4.1 — if the assignment covers all variables return it; otherwise
take the first unassigned variable, try its domain values in order, keep a
value only when `is_consistent(variable, value, assignment)` holds, recurse
and short-circuit on success, and report failure (`none`) when every value
fails.
-/

/-- First `some` produced by `f` over a list, tried left to right
(the value loop of the backtracking search). -/
def firstSome {α β : Type} (f : α → Option β) : List α → Option β
  | [] => none
  | x :: xs =>
    match f x with
    | some b => some b
    | none => firstSome f xs

/-- Modelled from the spec: the recursive backtracking search of spec
section 4.1, generic over the problem's `{variables, domains,
is_consistent}` capability set.  `dom v` is `v`'s domain, `cons` the
consistency predicate, the first list the still-unassigned variables in
order, and the second the partial assignment built so far. -/
def backtrack {α : Type} (dom : String → List α)
    (cons : String → α → List (String × α) → Bool) :
    List String → List (String × α) → Option (List (String × α))
  | [], a => some a
  | v :: rest, a =>
    firstSome
      (fun x => if cons v x a then backtrack dom cons rest (a ++ [(v, x)]) else none)
      (dom v)

/-- Modelled from the spec: `backtracking_search(map_coloring)` — run the
backtracking search on a `MapColoringProblem` from the empty assignment. -/
def MapColoringProblem.backtracking_search (p : MapColoringProblem) :
    Option (List (String × String)) :=
  backtrack (fun v => (lookupA p.domains v).getD []) p.is_consistent p.vars []

/-- Modelled from the spec: `backtracking_search(scheduling)` — run the
backtracking search on a `CourseSchedulingProblem` from the empty
assignment. -/
def CourseSchedulingProblem.backtracking_search (p : CourseSchedulingProblem) :
    Option (List (String × (String × String))) :=
  backtrack (fun v => (lookupA p.domains v).getD []) p.is_consistent p.vars []

/-- `consistentFromB cons a s = true` iff the pairs of `s`, appended in
order to the assignment `a`, are each accepted by `cons` against the
assignment in place when they are added. -/
def consistentFromB {α : Type} (cons : String → α → List (String × α) → Bool) :
    List (String × α) → List (String × α) → Bool
  | _, [] => true
  | a, e :: rest => cons e.1 e.2 a && consistentFromB cons (a ++ [e]) rest

example :
    (mkMapColoringProblem ["A", "B", "C"]
      [("A", ["B"]), ("B", ["A", "C"]), ("C", ["B"])]
      ["red", "green"]).backtracking_search =
      some [("A", "red"), ("B", "green"), ("C", "red")] := by decide

example :
    (mkMapColoringProblem ["A", "B"] [("A", ["B"])] ["red"]).backtracking_search =
      some [("A", "red"), ("B", "red")] := by decide

/-! ## Association-list lemmas -/

theorem lookupA_cons {β : Type} (e : String × β) (A : List (String × β)) (k : String) :
    lookupA (e :: A) k = if e.1 = k then some e.2 else lookupA A k := by
  by_cases h : e.1 = k <;> simp [lookupA, List.find?_cons, h]

theorem lookupA_eq_some_of_mem {β : Type} {A : List (String × β)} {k : String} {c : β}
    (hnd : KeysNodup A) (hm : (k, c) ∈ A) : lookupA A k = some c := by
  induction A with
  | nil => cases hm
  | cons e rest ih =>
    rw [lookupA_cons]
    rcases List.mem_cons.mp hm with he | hm'
    · rw [← he]
      simp
    · have hrest : KeysNodup rest := (List.nodup_cons.mp hnd).2
      have hk : e.1 ≠ k := by
        intro h
        exact (List.nodup_cons.mp hnd).1
          (h ▸ (List.mem_map.mpr ⟨(k, c), hm', rfl⟩))
      simp [hk, ih hrest hm']

theorem lookupA_eraseKey {β : Type} (A : List (String × β)) (k n : String) (h : n ≠ k) :
    lookupA (eraseKey A k) n = lookupA A n := by
  induction A with
  | nil => rfl
  | cons e rest ih =>
    rw [lookupA_cons]
    by_cases hek : e.1 = k
    · have hen : e.1 ≠ n := fun hc => h (hc ▸ hek)
      rw [if_neg hen]
      have hdrop : eraseKey (e :: rest) k = eraseKey rest k := by
        simp [eraseKey, List.filter_cons, hek]
      rw [hdrop]
      exact ih
    · have hkeep : eraseKey (e :: rest) k = e :: eraseKey rest k := by
        simp [eraseKey, List.filter_cons, hek]
      rw [hkeep, lookupA_cons]
      by_cases hen : e.1 = n
      · rw [if_pos hen, if_pos hen]
      · rw [if_neg hen, if_neg hen]
        exact ih

theorem mem_of_mem_eraseKey {β : Type} {A : List (String × β)} {k : String}
    {e : String × β} (hm : e ∈ eraseKey A k) : e ∈ A :=
  List.mem_of_mem_filter hm

/-! ## Characterisation of the two consistency predicates -/

/-- What `MapColoringProblem.is_consistent` checks, as a quantified
statement: no neighbour of `v` listed in the neighbors mapping is bound to
the colour `x` in the assignment. -/
theorem mapColoring_consistent_iff (p : MapColoringProblem) (v x : String)
    (A : List (String × String)) :
    p.is_consistent v x A = true ↔
      ∀ n ∈ neighborsGet p.neighbors v, lookupA A n ≠ some x := by
  unfold MapColoringProblem.is_consistent
  rw [List.all_eq_true]
  apply forall_congr'
  intro n
  apply imp_congr_right
  intro _
  cases h : lookupA A n with
  | none => simp [h]
  | some c => simp [h, decide_eq_true_eq]

/-- The violation `CourseSchedulingProblem.is_consistent` scans for: an
entry of the assignment for a different course at the same time which
either occupies the same room or forms a conflict pair with the queried
course. -/
def schedViolation (conflicts : List (String × String)) (c : String)
    (value : String × String) (A : List (String × (String × String))) : Bool :=
  A.any (fun e => decide (e.1 ≠ c) && decide (value.1 = e.2.1) &&
    (decide (value.2 = e.2.2) || conflictHit conflicts c e.1))

theorem csLoop_eq_not_violation (conflicts : List (String × String))
    (c : String) (value : String × String)
    (A : List (String × (String × String))) :
    csLoop conflicts c value A = !(schedViolation conflicts c value A) := by
  induction A with
  | nil => rfl
  | cons e rest ih =>
    simp only [schedViolation, List.any_cons] at ih ⊢
    by_cases h1 : e.1 = c
    · simp [csLoop, h1, ih]
    · by_cases h2 : value.1 = e.2.1
      · by_cases h3 : value.2 = e.2.2
        · simp [csLoop, h1, h2, h3]
        · by_cases h4 : conflictHit conflicts c e.1 = true
          · simp [csLoop, h1, h2, h3, h4]
          · simp [csLoop, h1, h2, h3, h4, ih]
      · simp [csLoop, h1, h2, ih]

/-- `CourseSchedulingProblem.is_consistent` returns `false` exactly when
some assigned entry witnesses a violation. -/
theorem sched_consistent_false_iff (p : CourseSchedulingProblem)
    (c : String) (value : String × String)
    (A : List (String × (String × String))) :
    p.is_consistent c value A = false ↔
      ∃ e ∈ A, e.1 ≠ c ∧ value.1 = e.2.1 ∧
        (value.2 = e.2.2 ∨ conflictHit p.conflicts c e.1 = true) := by
  unfold CourseSchedulingProblem.is_consistent
  rw [csLoop_eq_not_violation]
  simp only [Bool.not_eq_false', schedViolation, List.any_eq_true]
  constructor
  · rintro ⟨e, he, hb⟩
    simp only [Bool.and_eq_true, Bool.or_eq_true, decide_eq_true_eq] at hb
    exact ⟨e, he, hb.1.1, hb.1.2, hb.2⟩
  · rintro ⟨e, he, hb1, hb2, hb3⟩
    refine ⟨e, he, ?_⟩
    simp only [Bool.and_eq_true, Bool.or_eq_true, decide_eq_true_eq]
    exact ⟨⟨hb1, hb2⟩, hb3⟩

theorem lookupA_mem {β : Type} {A : List (String × β)} {k : String} {c : β}
    (h : lookupA A k = some c) : (k, c) ∈ A := by
  unfold lookupA at h
  rcases Option.map_eq_some'.mp h with ⟨e, hf, hc⟩
  have hk : e.1 = k := by
    have hp := List.find?_some hf
    simpa using hp
  have hm := List.mem_of_find?_eq_some hf
  have : e = (k, c) := by
    rcases e with ⟨e1, e2⟩
    cases hk
    cases hc
    rfl
  exact this ▸ hm

/-- The neighbors mapping is symmetric: whenever `n` is listed as a
neighbour of `v`, `v` is listed as a neighbour of `n`. -/
def SymmetricNeighborsB (nbrs : List (String × List String)) : Bool :=
  nbrs.all (fun e => e.2.all (fun n => decide (e.1 ∈ neighborsGet nbrs n)))

theorem symmetricNeighborsB_spec {nbrs : List (String × List String)}
    (h : SymmetricNeighborsB nbrs = true) :
    ∀ v n, n ∈ neighborsGet nbrs v → v ∈ neighborsGet nbrs n := by
  intro v n hn
  unfold neighborsGet at hn
  cases hl : lookupA nbrs v with
  | none => rw [hl] at hn; cases hn
  | some l =>
    rw [hl] at hn
    simp only [Option.getD_some] at hn
    have hmem : (v, l) ∈ nbrs := lookupA_mem hl
    unfold SymmetricNeighborsB at h
    rw [List.all_eq_true] at h
    have h2 := h (v, l) hmem
    rw [List.all_eq_true] at h2
    exact of_decide_eq_true (h2 n hn)

/-- An assignment grown only by accepted colourings, over a symmetric
neighbours mapping and without duplicate keys, never holds the same colour
on two adjacent regions.  (Generalised induction over the suffix still to
be added.) -/
theorem consistentFromB_adjacent_differ {p : MapColoringProblem}
    (hsym : ∀ v n, n ∈ neighborsGet p.neighbors v → v ∈ neighborsGet p.neighbors n) :
    ∀ (s a : List (String × String)), KeysNodup (a ++ s) →
      (∀ e ∈ a, ∀ f ∈ a, f.1 ∈ neighborsGet p.neighbors e.1 → e.1 ≠ f.1 → e.2 ≠ f.2) →
      consistentFromB p.is_consistent a s = true →
      ∀ e ∈ a ++ s, ∀ f ∈ a ++ s,
        f.1 ∈ neighborsGet p.neighbors e.1 → e.1 ≠ f.1 → e.2 ≠ f.2 := by
  intro s
  induction s with
  | nil =>
    intro a hnd hgood _
    simpa using hgood
  | cons w rest ih =>
    intro a hnd hgood hcons
    have hassoc : a ++ w :: rest = (a ++ [w]) ++ rest := by
      simp
    simp only [consistentFromB, Bool.and_eq_true_iff] at hcons
    rcases hcons with ⟨hw, hrest⟩
    have hnda : KeysNodup a := by
      unfold KeysNodup at hnd ⊢
      rw [List.map_append] at hnd
      exact hnd.of_append_left
    have hlk : ∀ e ∈ a, lookupA a e.1 = some e.2 := by
      intro e he
      exact lookupA_eq_some_of_mem hnda (by
        rcases e with ⟨e1, e2⟩
        exact he)
    have hwa := (mapColoring_consistent_iff p w.1 w.2 a).mp hw
    have hgood' : ∀ e ∈ a ++ [w], ∀ f ∈ a ++ [w],
        f.1 ∈ neighborsGet p.neighbors e.1 → e.1 ≠ f.1 → e.2 ≠ f.2 := by
      intro e he f hf hadj hne
      rcases List.mem_append.mp he with hea | hew
      · rcases List.mem_append.mp hf with hfa | hfw
        · exact hgood e hea f hfa hadj hne
        · have hfw' : f = w := List.mem_singleton.mp hfw
          subst hfw'
          have : e.1 ∈ neighborsGet p.neighbors f.1 := hsym e.1 f.1 hadj
          have hne2 := hwa e.1 this
          rw [hlk e hea] at hne2
          intro hval
          exact hne2 (by rw [hval])
      · have hew' : e = w := List.mem_singleton.mp hew
        subst hew'
        rcases List.mem_append.mp hf with hfa | hfw
        · have hne2 := hwa f.1 hadj
          rw [hlk f hfa] at hne2
          intro hval
          exact hne2 (by rw [hval])
        · have hfw' := List.mem_singleton.mp hfw
          subst hfw'
          exact absurd rfl hne
    rw [hassoc] at hnd ⊢
    exact ih (a ++ [w]) hnd hgood' hrest

/-! ## Concrete instances used by witnesses and counterexamples -/

/-- The spec's map-coloring scenario: regions A, B, C in a path, two
colours. -/
def mc3 : MapColoringProblem :=
  mkMapColoringProblem ["A", "B", "C"]
    [("A", ["B"]), ("B", ["A", "C"]), ("C", ["B"])] ["red", "green"]

/-- The solution the backtracking search finds on `mc3`. -/
def sol3 : List (String × String) := [("A", "red"), ("B", "green"), ("C", "red")]

/-- A constructible map-coloring problem whose neighbours mapping is
asymmetric: region A lists B, but B lists nobody. -/
def mcAsym : MapColoringProblem :=
  mkMapColoringProblem ["A", "B"] [("A", ["B"])] ["red"]

/-- A small scheduling instance: two conflicting courses, two time slots,
one room. -/
def cs1 : CourseSchedulingProblem :=
  mkCourseSchedulingProblem ["m", "p"] ["t1", "t2"] ["r1"] [("m", "p")]

/-- The schedule the backtracking search finds on `cs1`. -/
def cssol1 : List (String × (String × String)) :=
  [("m", ("t1", "r1")), ("p", ("t2", "r1"))]

/-!
## C1
-/

/-- C1: `MapColoringProblem.is_consistent v x A` accepts exactly when no
neighbour `n` of `v` listed in the neighbors mapping is assigned in `A`
with `A[n] = x`; and — amended — provided the neighbours mapping is
symmetric, any duplicate-key-free assignment built only from accepted
(variable, value) pairs colours adjacent assigned regions differently. -/
theorem mapColoring_is_consistent_correct (p : MapColoringProblem)
    (v x : String) (A : List (String × String)) :
    (p.is_consistent v x A = true ↔
      ∀ n ∈ neighborsGet p.neighbors v, lookupA A n ≠ some x) ∧
    (SymmetricNeighborsB p.neighbors = true →
      ∀ B : List (String × String), KeysNodup B →
        consistentFromB p.is_consistent [] B = true →
        ∀ e ∈ B, ∀ f ∈ B, f.1 ∈ neighborsGet p.neighbors e.1 →
          e.1 ≠ f.1 → e.2 ≠ f.2) := by
  refine ⟨mapColoring_consistent_iff p v x A, ?_⟩
  intro hsym B hnd hacc
  exact consistentFromB_adjacent_differ (symmetricNeighborsB_spec hsym) B []
    hnd (by intro e he; exact absurd he (List.not_mem_nil e)) hacc

/-- C1 counterexample: the claim fails without a symmetry assumption on
the neighbours mapping.  On `mcAsym` (A lists B as a neighbour, B lists
nobody) the assignment A=red, B=red is built only from accepted pairs —
each insertion passes `is_consistent` — yet the adjacent regions A and B
carry the same colour. -/
theorem mapColoring_adjacent_same_color_cex :
    consistentFromB mcAsym.is_consistent [] [("A", "red"), ("B", "red")] = true ∧
    "B" ∈ neighborsGet mcAsym.neighbors "A" ∧
    KeysNodup [(("A" : String), ("red" : String)), ("B", "red")] ∧
    lookupA [(("A" : String), ("red" : String)), ("B", "red")] "A" = some "red" ∧
    lookupA [(("A" : String), ("red" : String)), ("B", "red")] "B" = some "red" := by
  decide

/-- C1 witness: the theorem applied to the spec's three-region scenario —
an accepting concrete call, and the adjacent-regions-differ consequence on
the solution its search finds. -/
theorem mapColoring_is_consistent_correct_witness :
    mc3.is_consistent "B" "green" [("A", "red")] = true ∧
    (∀ e ∈ sol3, ∀ f ∈ sol3, f.1 ∈ neighborsGet mc3.neighbors e.1 →
      e.1 ≠ f.1 → e.2 ≠ f.2) :=
  ⟨(mapColoring_is_consistent_correct mc3 "B" "green" [("A", "red")]).1.mpr
      (by decide),
    (mapColoring_is_consistent_correct mc3 "B" "green" [("A", "red")]).2
      (by decide) sol3 (by decide) (by decide)⟩

/-!
## C3
-/

theorem firstSome_eq_some {α β : Type} {f : α → Option β} {l : List α} {b : β}
    (h : firstSome f l = some b) : ∃ x ∈ l, f x = some b := by
  induction l with
  | nil => cases h
  | cons x xs ih =>
    cases hf : f x with
    | some b2 =>
      simp only [firstSome, hf] at h
      exact ⟨x, List.mem_cons_self x xs, by rw [hf, h]⟩
    | none =>
      simp only [firstSome, hf] at h
      rcases ih h with ⟨y, hy, hfy⟩
      exact ⟨y, List.mem_cons_of_mem x hy, hfy⟩

/-- Soundness of the spec-modelled backtracking search: a returned
assignment extends the initial one with exactly the still-unassigned
variables, in order, each value having been accepted by the consistency
predicate against the assignment in place when it was chosen. -/
theorem backtrack_sound {α : Type} (dom : String → List α)
    (cons : String → α → List (String × α) → Bool) :
    ∀ (vs : List String) (a A : List (String × α)),
      backtrack dom cons vs a = some A →
      ∃ s, A = a ++ s ∧ s.map Prod.fst = vs ∧ consistentFromB cons a s = true := by
  intro vs
  induction vs with
  | nil =>
    intro a A h
    simp only [backtrack, Option.some.injEq] at h
    exact ⟨[], by simp [h], rfl, rfl⟩
  | cons v rest ih =>
    intro a A h
    simp only [backtrack] at h
    rcases firstSome_eq_some h with ⟨x, hx, hfx⟩
    by_cases hc : cons v x a = true
    · rw [if_pos hc] at hfx
      rcases ih (a ++ [(v, x)]) A hfx with ⟨s, hA, hkeys, hcons⟩
      refine ⟨(v, x) :: s, ?_, ?_, ?_⟩
      · rw [hA]; simp
      · simp [hkeys]
      · simp only [consistentFromB, Bool.and_eq_true_iff]
        exact ⟨hc, hcons⟩
    · rw [if_neg hc] at hfx
      cases hfx

/-- C3 (amended): whenever the spec-modelled `backtracking_search` returns
a solution on either example problem class, the solution is complete — its
keys are exactly the problem's variables, in order — and every variable's
value was accepted by `is_consistent` against the partial assignment of the
variables assigned before it. -/
theorem backtracking_search_sound (p : MapColoringProblem)
    (q : CourseSchedulingProblem) (A : List (String × String))
    (B : List (String × (String × String)))
    (hp : p.backtracking_search = some A)
    (hq : q.backtracking_search = some B) :
    (A.map Prod.fst = p.vars ∧ consistentFromB p.is_consistent [] A = true) ∧
    (B.map Prod.fst = q.vars ∧ consistentFromB q.is_consistent [] B = true) := by
  constructor
  · unfold MapColoringProblem.backtracking_search at hp
    rcases backtrack_sound _ _ p.vars [] A hp with ⟨s, hA, hk, hc⟩
    rw [List.nil_append] at hA
    subst hA
    exact ⟨hk, hc⟩
  · unfold CourseSchedulingProblem.backtracking_search at hq
    rcases backtrack_sound _ _ q.vars [] B hq with ⟨s, hB, hk, hc⟩
    rw [List.nil_append] at hB
    subst hB
    exact ⟨hk, hc⟩

/-- C3 counterexample: the claim as stated fails.  On the constructible
problem `mcAsym` (asymmetric neighbours: A lists B, B lists nobody, one
colour) the search returns the complete assignment A=red, B=red, yet
`is_consistent` rejects A's value against the rest of the solution, because
A's neighbour B holds the same colour. -/
theorem backtracking_search_inconsistent_cex :
    mcAsym.backtracking_search = some [("A", "red"), ("B", "red")] ∧
    mcAsym.is_consistent "A" "red"
      (eraseKey [(("A" : String), ("red" : String)), ("B", "red")] "A") = false := by
  decide

/-- C3 witness: the soundness theorem applied to the two concrete example
problems and the solutions their searches return. -/
theorem backtracking_search_sound_witness :
    mc3.backtracking_search = some sol3 ∧
    cs1.backtracking_search = some cssol1 ∧
    ((sol3.map Prod.fst = mc3.vars ∧
        consistentFromB mc3.is_consistent [] sol3 = true) ∧
      (cssol1.map Prod.fst = cs1.vars ∧
        consistentFromB cs1.is_consistent [] cssol1 = true)) :=
  ⟨by decide, by decide,
    backtracking_search_sound mc3 cs1 sol3 cssol1 (by decide) (by decide)⟩

/-!
## C2
-/

theorem conflictHit_iff (conflicts : List (String × String)) (c c' : String) :
    conflictHit conflicts c c' = true ↔
      (c, c') ∈ conflicts ∨ (c', c) ∈ conflicts := by
  unfold conflictHit
  rw [List.any_eq_true]
  constructor
  · rintro ⟨q, hq, hb⟩
    rcases q with ⟨q1, q2⟩
    simp only [Bool.or_eq_true, Bool.and_eq_true_iff, decide_eq_true_eq] at hb
    rcases hb with ⟨h1, h2⟩ | ⟨h1, h2⟩
    · subst h1; subst h2; exact Or.inl hq
    · subst h1; subst h2; exact Or.inr hq
  · rintro (h | h)
    · exact ⟨(c, c'), h, by simp⟩
    · exact ⟨(c', c), h, by simp⟩

/-- C2: `CourseSchedulingProblem.is_consistent c (t, r) A` returns `false`
exactly when some assigned course other than `c` occupies the same time
and room, or occupies the same time while forming a conflict pair with `c`
in either order; in particular conflicting courses are never both accepted
at one time slot, while the same room at different times is accepted. -/
theorem sched_is_consistent_correct (p : CourseSchedulingProblem)
    (c t r : String) (A : List (String × (String × String))) :
    (p.is_consistent c (t, r) A = false ↔
      ∃ e ∈ A, e.1 ≠ c ∧ e.2.1 = t ∧
        (e.2.2 = r ∨ (c, e.1) ∈ p.conflicts ∨ (e.1, c) ∈ p.conflicts)) ∧
    (∀ c' r', ((c, c') ∈ p.conflicts ∨ (c', c) ∈ p.conflicts) →
      (c', (t, r')) ∈ A → c' ≠ c → p.is_consistent c (t, r) A = false) ∧
    (∀ c' t', c' ≠ c → t' ≠ t → p.is_consistent c (t, r) [(c', (t', r))] = true) := by
  have hiff : p.is_consistent c (t, r) A = false ↔
      ∃ e ∈ A, e.1 ≠ c ∧ e.2.1 = t ∧
        (e.2.2 = r ∨ (c, e.1) ∈ p.conflicts ∨ (e.1, c) ∈ p.conflicts) := by
    rw [sched_consistent_false_iff]
    constructor
    · rintro ⟨e, he, h1, h2, h3 | h3⟩
      · exact ⟨e, he, h1, h2.symm, Or.inl h3.symm⟩
      · exact ⟨e, he, h1, h2.symm, Or.inr ((conflictHit_iff p.conflicts c e.1).mp h3)⟩
    · rintro ⟨e, he, h1, h2, h3 | h3⟩
      · exact ⟨e, he, h1, h2.symm, Or.inl h3.symm⟩
      · exact ⟨e, he, h1, h2.symm, Or.inr ((conflictHit_iff p.conflicts c e.1).mpr h3)⟩
  refine ⟨hiff, ?_, ?_⟩
  · intro c' r' hconf hmem hne
    apply hiff.mpr
    exact ⟨(c', (t, r')), hmem, hne, rfl, Or.inr hconf⟩
  · intro c' t' hne ht
    unfold CourseSchedulingProblem.is_consistent
    simp only [csLoop]
    rw [if_neg (by exact fun h => hne h)]
    rw [if_neg (by rintro ⟨h1, _⟩; exact ht h1.symm)]
    rw [if_neg (by rintro ⟨h1, _⟩; exact ht h1.symm)]

/-- C2 witness: the theorem applied to the small scheduling instance `cs1`
— the conflicting course pair m, p is rejected at a shared time slot, and
accepted in the same room at different times. -/
theorem sched_is_consistent_correct_witness :
    cs1.is_consistent "p" ("t1", "r2") [("m", ("t1", "r1"))] = false ∧
    cs1.is_consistent "p" ("t2", "r1") [("m", ("t1", "r1"))] = true :=
  ⟨(sched_is_consistent_correct cs1 "p" "t1" "r2" [("m", ("t1", "r1"))]).2.1
      "m" "r1" (by decide) (by decide) (by decide),
    (sched_is_consistent_correct cs1 "p" "t2" "r1" [("m", ("t1", "r1"))]).2.2
      "m" "t1" (by decide) (by decide)⟩

/-!
## C4 and C5
-/

theorem lookupA_map_const {β : Type} (l : List String) (c : β) (v : String)
    (hv : v ∈ l) : lookupA (l.map (fun r => (r, c))) v = some c := by
  induction l with
  | nil => cases hv
  | cons x xs ih =>
    rw [List.map_cons, lookupA_cons]
    by_cases hxv : x = v
    · simp [hxv]
    · rcases List.mem_cons.mp hv with h | h
      · exact absurd h.symm hxv
      · simpa [hxv] using ih h

/-- An invalid problem definition: no colours at all, and a neighbours
entry naming the region Z which is not among the regions. -/
def mcInvalid : MapColoringProblem :=
  mkMapColoringProblem ["A"] [("A", ["Z"])] []

/-- C4 counterexample: the invalid problem `mcInvalid` is constructed
without any error — region A simply receives the empty domain — and its
first use returns normally (`is_consistent` yields True), so nothing fails
fast. -/
theorem invalid_problem_not_rejected_cex :
    mcInvalid.domains = [("A", [])] ∧
    mcInvalid.is_consistent "A" "red" [] = true := by decide

/-- C4 (amended): neither construction nor first use validates the problem
definition.  With an empty colors list every region's domain is the empty
list and the search silently reports no solution; a neighbours entry naming
an unknown region is accepted and treated like any other name. -/
theorem mapColoring_no_validation (regions : List String)
    (nbrs : List (String × List String)) (v : String) (hv : v ∈ regions) :
    lookupA (mkMapColoringProblem regions nbrs []).domains v = some [] ∧
    (mkMapColoringProblem regions nbrs []).backtracking_search = none := by
  cases regions with
  | nil => cases hv
  | cons r0 rest =>
    refine ⟨lookupA_map_const _ _ _ hv, ?_⟩
    have hd : lookupA (mkMapColoringProblem (r0 :: rest) nbrs []).domains r0 =
        some [] :=
      lookupA_map_const _ _ _ (List.mem_cons_self r0 rest)
    show backtrack
      (fun w => (lookupA (mkMapColoringProblem (r0 :: rest) nbrs []).domains w).getD [])
      (mkMapColoringProblem (r0 :: rest) nbrs []).is_consistent (r0 :: rest) [] = none
    rw [backtrack]
    rw [hd]
    rfl

/-- C4 witness: the amended theorem applied to the concrete invalid
problem. -/
theorem mapColoring_no_validation_witness :
    ("A" : String) ∈ ["A"] ∧
    (lookupA mcInvalid.domains "A" = some [] ∧
      mcInvalid.backtracking_search = none) :=
  ⟨by decide, mapColoring_no_validation ["A"] [("A", ["Z"])] "A" (by decide)⟩

/-- C5: after construction every region's domain is the given colors list
and every course's domain is the time-major product of time slots and
rooms; the stored domains are values of the constructor, fixed at
construction. -/
theorem domains_initialised (regions colors : List String)
    (nbrs : List (String × List String))
    (courses time_slots rooms : List String)
    (conflicts : List (String × String)) (v c : String)
    (hv : v ∈ regions) (hc : c ∈ courses) :
    lookupA (mkMapColoringProblem regions nbrs colors).domains v = some colors ∧
    lookupA (mkCourseSchedulingProblem courses time_slots rooms conflicts).domains c =
      some (time_slots.flatMap (fun time => rooms.map (fun room => (time, room)))) := by
  exact ⟨lookupA_map_const regions colors v hv, lookupA_map_const courses _ c hc⟩

/-- C5 witness: the initial domain contents of the two concrete example problems. -/
theorem domains_initialised_witness :
    ("A" : String) ∈ ["A", "B", "C"] ∧ ("m" : String) ∈ ["m", "p"] ∧
    (lookupA mc3.domains "A" = some ["red", "green"] ∧
      lookupA cs1.domains "m" = some [("t1", "r1"), ("t2", "r1")]) :=
  ⟨by decide, by decide,
    domains_initialised ["A", "B", "C"] ["red", "green"]
      [("A", ["B"]), ("B", ["A", "C"]), ("C", ["B"])]
      ["m", "p"] ["t1", "t2"] ["r1"] [("m", "p")] "A" "m"
      (by decide) (by decide)⟩

/-!
## C6 and C10
-/

theorem allCongr {f g : String → Bool} (l : List String)
    (h : ∀ n ∈ l, f n = g n) : l.all f = l.all g := by
  induction l with
  | nil => rfl
  | cons x xs ih =>
    rw [List.all_cons, List.all_cons, h x (List.mem_cons_self x xs),
      ih (fun n hn => h n (List.mem_cons_of_mem x hn))]

/-- The assignment loop of the scheduling predicate skips entries keyed by
the queried course, so removing that key changes nothing. -/
theorem csLoop_eraseKey (conflicts : List (String × String)) (c : String)
    (val : String × String) (A : List (String × (String × String))) :
    csLoop conflicts c val A = csLoop conflicts c val (eraseKey A c) := by
  induction A with
  | nil => rfl
  | cons e rest ih =>
    by_cases he : e.1 = c
    · have hdrop : eraseKey (e :: rest) c = eraseKey rest c := by
        simp [eraseKey, List.filter_cons, he]
      rw [hdrop]
      simp only [csLoop, if_pos he]
      exact ih
    · have hkeep : eraseKey (e :: rest) c = e :: eraseKey rest c := by
        simp [eraseKey, List.filter_cons, he]
      rw [hkeep]
      simp only [csLoop, if_neg he]
      by_cases h2 : val.1 = e.2.1 ∧ val.2 = e.2.2
      · rw [if_pos h2, if_pos h2]
      · rw [if_neg h2, if_neg h2]
        by_cases h3 : val.1 = e.2.1 ∧ conflictHit conflicts c e.1 = true
        · rw [if_pos h3, if_pos h3]
        · rw [if_neg h3, if_neg h3]
          exact ih

/-- C6: each predicate consults only the relevant part of the assignment —
`MapColoringProblem.is_consistent v x ·` is determined by the lookups of
`v`'s listed neighbours, and `CourseSchedulingProblem.is_consistent c val ·`
by the entries for courses other than `c`; entries for other (in particular
unassigned) variables cannot influence the result, and equal inputs give
equal results. -/
theorem is_consistent_depends_only_on_relevant (p : MapColoringProblem)
    (q : CourseSchedulingProblem) (v x : String)
    (A A' : List (String × String)) (c : String) (val : String × String)
    (B B' : List (String × (String × String)))
    (hmap : ∀ n ∈ neighborsGet p.neighbors v, lookupA A n = lookupA A' n)
    (hsched : eraseKey B c = eraseKey B' c) :
    p.is_consistent v x A = p.is_consistent v x A' ∧
    q.is_consistent c val B = q.is_consistent c val B' := by
  constructor
  · unfold MapColoringProblem.is_consistent
    apply allCongr
    intro n hn
    rw [hmap n hn]
  · unfold CourseSchedulingProblem.is_consistent
    rw [csLoop_eraseKey q.conflicts c val B, hsched, ← csLoop_eraseKey]

/-- C6 witness: adding an entry for an unlisted region Z, or dropping the
queried course's own entry, leaves each predicate's result unchanged on the
concrete instances. -/
theorem is_consistent_depends_only_on_relevant_witness :
    mc3.is_consistent "B" "red" [("A", "red")] =
      mc3.is_consistent "B" "red" [("A", "red"), ("Z", "blue")] ∧
    cs1.is_consistent "p" ("t1", "r1") [("m", ("t1", "r1")), ("p", ("t2", "r2"))] =
      cs1.is_consistent "p" ("t1", "r1") [("m", ("t1", "r1"))] :=
  is_consistent_depends_only_on_relevant mc3 cs1 "B" "red"
    [("A", "red")] [("A", "red"), ("Z", "blue")] "p" ("t1", "r1")
    [("m", ("t1", "r1")), ("p", ("t2", "r2"))] [("m", ("t1", "r1"))]
    (by decide) (by decide)

/-- C10: the scheduling predicate ignores any existing entry for the
queried course itself — its result on an assignment equals its result with
that course's entry removed, so a course never conflicts with its own
proposed value. -/
theorem sched_ignores_own_entry (p : CourseSchedulingProblem) (c : String)
    (val : String × String) (A : List (String × (String × String))) :
    p.is_consistent c val A = p.is_consistent c val (eraseKey A c) :=
  csLoop_eraseKey p.conflicts c val A

/-!
## C7, C8 and C9
-/

/-- State-passing rendering of the neighbour loop of
`MapColoringProblem.is_consistent`: the state carries the problem object
and the assignment, read afresh at every iteration, and is returned with
the boolean result. -/
def mcLoopS (value : String) :
    List String → MapColoringProblem × List (String × String) →
      Bool × (MapColoringProblem × List (String × String))
  | [], s => (true, s)
  | n :: rest, s =>
    match lookupA s.2 n with
    | some c => if c = value then (false, s) else mcLoopS value rest s
    | none => mcLoopS value rest s

/-- State-passing rendering of `MapColoringProblem.is_consistent`. -/
def MapColoringProblem.is_consistentS (p : MapColoringProblem)
    (var value : String) (assignment : List (String × String)) :
    Bool × (MapColoringProblem × List (String × String)) :=
  mcLoopS value (neighborsGet p.neighbors var) (p, assignment)

theorem mcLoopS_spec (value : String) :
    ∀ (l : List String) (s : MapColoringProblem × List (String × String)),
      mcLoopS value l s =
        (l.all (fun n =>
          match lookupA s.2 n with
          | some c => decide (c ≠ value)
          | none => true), s) := by
  intro l
  induction l with
  | nil => intro s; rfl
  | cons n rest ih =>
    intro s
    rw [List.all_cons]
    cases hl : lookupA s.2 n with
    | some c =>
      by_cases hc : c = value
      · simp [mcLoopS, hl, hc]
      · simp [mcLoopS, hl, hc, ih s]
    | none => simp [mcLoopS, hl, ih s]

/-- State-passing rendering of the assignment loop of
`CourseSchedulingProblem.is_consistent`: the conflicts list is read from
the problem object in the state at every iteration. -/
def csLoopS (var : String) (value : String × String) :
    List (String × (String × String)) →
      CourseSchedulingProblem × List (String × (String × String)) →
      Bool × (CourseSchedulingProblem × List (String × (String × String)))
  | [], s => (true, s)
  | e :: rest, s =>
    if e.1 = var then csLoopS var value rest s
    else if value.1 = e.2.1 ∧ value.2 = e.2.2 then (false, s)
    else if value.1 = e.2.1 ∧ conflictHit s.1.conflicts var e.1 = true then (false, s)
    else csLoopS var value rest s

/-- State-passing rendering of `CourseSchedulingProblem.is_consistent`. -/
def CourseSchedulingProblem.is_consistentS (q : CourseSchedulingProblem)
    (var : String) (value : String × String)
    (assignment : List (String × (String × String))) :
    Bool × (CourseSchedulingProblem × List (String × (String × String))) :=
  csLoopS var value assignment (q, assignment)

theorem csLoopS_spec (var : String) (value : String × String) :
    ∀ (l : List (String × (String × String)))
      (s : CourseSchedulingProblem × List (String × (String × String))),
      csLoopS var value l s = (csLoop s.1.conflicts var value l, s) := by
  intro l
  induction l with
  | nil => intro s; rfl
  | cons e rest ih =>
    intro s
    by_cases h1 : e.1 = var
    · simp only [csLoopS, csLoop, if_pos h1]
      exact ih s
    · by_cases h2 : value.1 = e.2.1 ∧ value.2 = e.2.2
      · simp only [csLoopS, csLoop, if_neg h1, if_pos h2]
      · by_cases h3 : value.1 = e.2.1 ∧ conflictHit s.1.conflicts var e.1 = true
        · simp only [csLoopS, csLoop, if_neg h1, if_neg h2, if_pos h3]
        · simp only [csLoopS, csLoop, if_neg h1, if_neg h2, if_neg h3]
          exact ih s

/-- C7: neither `is_consistent` call mutates anything — rendered with
explicit state passing, each call returns the problem object (hence all its
fields) and the passed assignment unchanged, alongside the pure result. -/
theorem is_consistent_mutates_nothing (p : MapColoringProblem)
    (q : CourseSchedulingProblem) (v x : String) (A : List (String × String))
    (c : String) (val : String × String)
    (B : List (String × (String × String))) :
    p.is_consistentS v x A = (p.is_consistent v x A, (p, A)) ∧
    q.is_consistentS c val B = (q.is_consistent c val B, (q, B)) := by
  constructor
  · rw [MapColoringProblem.is_consistentS, mcLoopS_spec]
    rfl
  · rw [CourseSchedulingProblem.is_consistentS, csLoopS_spec]
    rfl

/-- C8: on the empty assignment both predicates accept every candidate
value for every variable, so a search's first tentative assignment is never
rejected. -/
theorem empty_assignment_accepts (p : MapColoringProblem)
    (q : CourseSchedulingProblem) (v x : String) (c : String)
    (val : String × String) :
    p.is_consistent v x [] = true ∧ q.is_consistent c val [] = true := by
  constructor
  · unfold MapColoringProblem.is_consistent
    rw [List.all_eq_true]
    intro n _
    rfl
  · rfl

/-- C9: a variable with no entry in the neighbours mapping is totally
unconstrained — `neighbors.get(v, [])` defaults to the empty neighbour
list, and `is_consistent` returns True on every value and assignment. -/
theorem missing_variable_unconstrained (p : MapColoringProblem)
    (v x : String) (A : List (String × String))
    (h : lookupA p.neighbors v = none) :
    p.is_consistent v x A = true := by
  unfold MapColoringProblem.is_consistent neighborsGet
  rw [h]
  rfl

/-- C9 witness: the region Q has no entry in `mc3`'s neighbours mapping,
and every colouring of Q is accepted. -/
theorem missing_variable_unconstrained_witness :
    lookupA mc3.neighbors "Q" = none ∧
    mc3.is_consistent "Q" "red" [("A", "red")] = true :=
  ⟨by decide, missing_variable_unconstrained mc3 "Q" "red" [("A", "red")] (by decide)⟩
